import Mathlib

/-!
Verification of the InputTemplateProcessor pipeline stage
(src/packages/context-engine/src/processors/InputTemplate.ts).

The stage conditionally rewrites the most recent user message of a
conversation context by substituting its text into a configured template
string.  The embedding below translates:

* the data model (PipelineContext, Message, metadata mapping);
* the stage algorithm doProcess, parameterised by the templating engine,
  which is an external collaborator that may fail at compile time or at
  apply time (failures are embedded as Except values, and the source's
  try/catch blocks become the corresponding error branches);
* the concrete interpolation behaviour of the engine as configured by the
  stage (pattern /{{\s*(text)\s*}}/g), modelled from the spec since the
  engine (es-toolkit) is an external dependency;
* a small reference-and-store semantics used to state that the caller's
  original context is never mutated (the aliasing content of cloneContext,
  whose implementation lives in the BaseProcessor outside the sources at
  hand, modelled from the spec).
-/

namespace ContextEngine

/-- Values stored in a context's metadata mapping: the stage writes a
numeric processed count and the execution marker. -/
inductive MetaValue where
  | num (n : Nat)
  | bool (b : Bool)
  deriving DecidableEq

/-- A metadata mapping, as a JS object read through property lookup: an
absent key reads as none. -/
abbrev Metadata := String → Option MetaValue

/-- JS property assignment on a metadata object. -/
def setMeta (md : Metadata) (k : String) (v : MetaValue) : Metadata :=
  fun q => if q = k then some v else md q

/-- Message content: either plain string content, or a structured
multimodal content value (content arrays in the source). -/
inductive MessageContent where
  | text (s : String)
  | parts (items : List String)
  deriving DecidableEq

/-- A chat message as the processor reads it: an identifier, a role string
and the content.  Replacing content uses a record update, mirroring the
source's spread {...message, content}. -/
structure Message where
  id : String
  role : String
  content : MessageContent
  deriving DecidableEq

/-- The pipeline context flowing through the stage: the ordered message
sequence plus the metadata mapping. -/
structure PipelineContext where
  messages : List Message
  metadata : Metadata

/-- The stage-namespaced metadata key the source writes:
clonedContext.metadata.inputTemplateProcessed = processedCount. -/
def processedKey : String := "inputTemplateProcessed"

/-- Modelled from the spec: the BaseProcessor base class (outside the
sources at hand) stamps an execution marker in metadata under a
stage-specific key when markAsExecuted runs. -/
def executedKey : String := "executed:InputTemplateProcessor"

/-- Modelled from the spec: cloneContext produces a structurally
independent copy (shallow copy of the message container plus a fresh
metadata mapping).  On immutable Lean values the copy carries the same
components; the aliasing aspect is modelled by the store semantics
below. -/
def cloneContext (c : PipelineContext) : PipelineContext :=
  { messages := c.messages, metadata := c.metadata }

/-- Modelled from the spec: markAsExecuted stamps bookkeeping in metadata
indicating this stage ran; it is always the final step before
returning. -/
def markAsExecuted (c : PipelineContext) : PipelineContext :=
  { c with metadata := setMeta c.metadata executedKey (MetaValue.bool true) }

/-- A templating engine, at the boundary through which the stage uses it:
compiling a template string may throw, and the compiled function applied
to the text binding may throw.  Thrown exceptions are embedded as error
results; the stage catches both kinds. -/
abbrev Engine := String → Except Unit (String → Except Unit String)

/-- Truthiness test of this.config.inputTemplate: the source guards with
!this.config.inputTemplate, so an absent template and the empty string are
both treated as no template configured. -/
def templateDisabled : Option String → Bool
  | none => true
  | some t => t == ""

/-- The source's backwards for-loop: for i from messages.length - 1 down
to 0, stop at the first i with messages[i]?.role === 'user'.  The Nat
argument is the count of indices still to inspect, starting at the
length. -/
def lastUserIndexFrom (msgs : List Message) : Nat → Option Nat
  | 0 => none
  | i + 1 =>
    match msgs[i]? with
    | some m => if m.role == "user" then some i else lastUserIndexFrom msgs i
    | none => lastUserIndexFrom msgs i

/-- Index of the last message whose role is user, or none. -/
def lastUserIndex (msgs : List Message) : Option Nat :=
  lastUserIndexFrom msgs msgs.length

/-- The body of the source's try block: compile the template, locate the
last user message, and when its content is a plain string apply the
compiled template, replacing the message only when the result differs.
Returns the resulting message sequence and the processed count.  Error
branches correspond to the source's catch blocks (compile failure skips
everything, apply failure keeps the original message). -/
def processMessages (compile : Engine) (tmpl : String) (msgs : List Message) :
    List Message × Nat :=
  match compile tmpl with
  | Except.error _ => (msgs, 0)
  | Except.ok compiler =>
    match lastUserIndex msgs with
    | none => (msgs, 0)
    | some i =>
      match msgs[i]? with
      | none => (msgs, 0)
      | some message =>
        match message.content with
        | MessageContent.parts _ => (msgs, 0)
        | MessageContent.text originalContent =>
          match compiler originalContent with
          | Except.error _ => (msgs, 0)
          | Except.ok processedContent =>
            if processedContent ≠ originalContent then
              (msgs.set i { message with content := MessageContent.text processedContent }, 1)
            else
              (msgs, 0)

/-- The stage's doProcess: clone the context; when no template is
configured return the clone marked as executed; otherwise run the
template application, write the processed count under the stage key, and
mark as executed.  Totality of this function embeds the source's
guarantee that no failure escapes doProcess. -/
def doProcess (compile : Engine) (cfg : Option String)
    (context : PipelineContext) : PipelineContext :=
  let clonedContext := cloneContext context
  if templateDisabled cfg then
    markAsExecuted clonedContext
  else
    let result := processMessages compile (cfg.getD "") clonedContext.messages
    markAsExecuted
      { clonedContext with
        messages := result.1
        metadata := setMeta clonedContext.metadata processedKey (MetaValue.num result.2) }

/-- ASCII whitespace matched by the \s of the interpolation pattern. -/
def isTemplateWs (c : Char) : Bool :=
  c == ' ' || c == '\t' || c == '\n' || c == '\r' || c == '\x0b' || c == '\x0c'

/-- Consume leading whitespace characters. -/
def dropWs : List Char → List Char
  | [] => []
  | c :: rest => if isTemplateWs c then dropWs rest else c :: rest

/-- Match the interpolation pattern, open braces then optional whitespace
then the literal identifier text then optional whitespace then close
braces, at the head of the character list; on success return the
remaining characters after the match. -/
def matchPlaceholder : List Char → Option (List Char)
  | '{' :: '{' :: rest =>
    match dropWs rest with
    | 't' :: 'e' :: 'x' :: 't' :: r2 =>
      match dropWs r2 with
      | '}' :: '}' :: r4 => some r4
      | _ => none
    | _ => none
  | _ => none

/-- One left-to-right pass over the template characters, replacing every
placeholder match by the bound text; substituted text is never rescanned.
Fuel bounds the recursion and is instantiated with the character count,
which suffices because every placeholder match consumes at least one
character. -/
def substFuel (text : String) : Nat → List Char → List Char
  | 0, cs => cs
  | _ + 1, [] => []
  | fuel + 1, c :: rest =>
    match matchPlaceholder (c :: rest) with
    | some after => text.toList ++ substFuel text fuel after
    | none => c :: substFuel text fuel rest

/-- Modelled from the spec: the external templating engine (es-toolkit
template, an external dependency) as the stage configures it, with
interpolation pattern /{{\s*(text)\s*}}/g: every occurrence of the
placeholder is replaced by the bound text, all other characters are
copied verbatim. -/
def applyTemplate (tmpl text : String) : String :=
  String.mk (substFuel text tmpl.toList.length tmpl.toList)

/-- Modelled from the spec: the engine the stage actually runs with, whose
compilation never throws and whose compiled function performs the
placeholder substitution. -/
def specEngine : Engine :=
  fun tmpl => Except.ok (fun text => Except.ok (applyTemplate tmpl text))

/-- An engine whose compilation always throws, exercising the outer catch
of the source. -/
def failCompileEngine : Engine := fun _ => Except.error ()

/-- An engine that compiles but whose compiled function always throws,
exercising the inner catch of the source. -/
def failApplyEngine : Engine := fun _ => Except.ok (fun _ => Except.error ())

/-- Decides that no suffix of the character list begins a placeholder
match, so the template is inert under substitution. -/
def noPlaceholderAux : List Char → Bool
  | [] => true
  | c :: rest => (matchPlaceholder (c :: rest)).isNone && noPlaceholderAux rest

/-- Decides that the template string contains no placeholder
occurrence. -/
def noPlaceholder (tmpl : String) : Bool :=
  noPlaceholderAux tmpl.toList

/-- A heap of message arrays and metadata objects addressed by references,
used to state that the stage never writes through the caller's
references.  nextRef is the allocation frontier: every live reference is
below it. -/
structure Store where
  msgArrays : Nat → List Message
  metaMaps : Nat → Metadata
  nextRef : Nat

/-- A context as the caller holds it: references into the store for the
message array and the metadata object. -/
structure CtxRef where
  msgRef : Nat
  metaRef : Nat

/-- Modelled from the spec: cloneContext allocates a fresh message
container holding the same messages and a fresh metadata mapping holding
the same entries, leaving every existing reference untouched. -/
def cloneContextS (s : Store) (c : CtxRef) : Store × CtxRef :=
  ({ msgArrays := fun r => if r = s.nextRef then s.msgArrays c.msgRef else s.msgArrays r
     metaMaps := fun r => if r = s.nextRef + 1 then s.metaMaps c.metaRef else s.metaMaps r
     nextRef := s.nextRef + 2 },
   { msgRef := s.nextRef, metaRef := s.nextRef + 1 })

/-- In-place update of the message array behind a reference. -/
def writeMsgs (s : Store) (r : Nat) (msgs : List Message) : Store :=
  { s with msgArrays := fun q => if q = r then msgs else s.msgArrays q }

/-- In-place metadata property assignment behind a reference. -/
def writeMetaS (s : Store) (r : Nat) (k : String) (v : MetaValue) : Store :=
  { s with metaMaps := fun q => if q = r then setMeta (s.metaMaps r) k v else s.metaMaps q }

/-- Store-level markAsExecuted: stamps the execution marker through the
context's metadata reference. -/
def markAsExecutedS (s : Store) (c : CtxRef) : Store × CtxRef :=
  (writeMetaS s c.metaRef executedKey (MetaValue.bool true), c)

/-- Store-level doProcess: clone the context, then perform all writes (the
message replacement, the processed-count record and the execution marker)
through the clone's references only, exactly as the source mutates only
clonedContext. -/
def doProcessS (compile : Engine) (cfg : Option String)
    (s : Store) (c : CtxRef) : Store × CtxRef :=
  let step := cloneContextS s c
  let s1 := step.1
  let cloned := step.2
  if templateDisabled cfg then
    markAsExecutedS s1 cloned
  else
    let result := processMessages compile (cfg.getD "") (s1.msgArrays cloned.msgRef)
    let s2 := writeMsgs s1 cloned.msgRef result.1
    let s3 := writeMetaS s2 cloned.metaRef processedKey (MetaValue.num result.2)
    markAsExecutedS s3 cloned

/-- An empty metadata object. -/
def emptyMeta : Metadata := fun _ => none

/-- The template of the substitution-correctness scenario. -/
def tplC1 : String := "Context: \x7b\x7btext\x7d\x7d"

/-- The last user message of the substitution-correctness scenario. -/
def msgC1 : Message := { id := "m1", role := "user", content := MessageContent.text "hi" }

/-- Context of the substitution-correctness scenario. -/
def ctxC1 : PipelineContext := { messages := [msgC1], metadata := emptyMeta }

/-- A two-message context used by several concrete scenarios. -/
def ctxB : PipelineContext :=
  { messages :=
      [ { id := "s1", role := "system", content := MessageContent.text "sys" },
        { id := "u1", role := "user", content := MessageContent.text "hello" } ]
    metadata := emptyMeta }

/-- A context whose last user message has multimodal content. -/
def ctxParts : PipelineContext :=
  { messages := [ { id := "p1", role := "user", content := MessageContent.parts ["img"] } ]
    metadata := emptyMeta }

end ContextEngine

namespace ContextEngine

theorem setMeta_same (md : Metadata) (k : String) (v : MetaValue) :
    setMeta md k v k = some v := by
  simp [setMeta]

theorem setMeta_other (md : Metadata) (k : String) (v : MetaValue)
    (q : String) (h : q ≠ k) : setMeta md k v q = md q := by
  simp [setMeta, h]

theorem pk_ne_ek : processedKey ≠ executedKey := by decide

theorem markAsExecuted_messages (c : PipelineContext) :
    (markAsExecuted c).messages = c.messages := rfl

theorem markAsExecuted_metadata_processed (c : PipelineContext) :
    (markAsExecuted c).metadata processedKey = c.metadata processedKey :=
  setMeta_other c.metadata executedKey (MetaValue.bool true) processedKey pk_ne_ek

theorem markAsExecuted_metadata_executed (c : PipelineContext) :
    (markAsExecuted c).metadata executedKey = some (MetaValue.bool true) :=
  setMeta_same c.metadata executedKey (MetaValue.bool true)

theorem markAsExecuted_metadata_other (c : PipelineContext) (k : String)
    (h : k ≠ executedKey) : (markAsExecuted c).metadata k = c.metadata k :=
  setMeta_other c.metadata executedKey (MetaValue.bool true) k h

theorem doProcess_disabled (compile : Engine) (cfg : Option String)
    (ctx : PipelineContext) (hd : templateDisabled cfg = true) :
    doProcess compile cfg ctx = markAsExecuted (cloneContext ctx) := by
  simp only [doProcess]
  rw [if_pos hd]

theorem doProcess_enabled (compile : Engine) (cfg : Option String)
    (ctx : PipelineContext) (hd : templateDisabled cfg = false) :
    doProcess compile cfg ctx =
      markAsExecuted
        { messages := (processMessages compile (cfg.getD "") ctx.messages).1
          metadata := setMeta ctx.metadata processedKey
              (MetaValue.num (processMessages compile (cfg.getD "") ctx.messages).2) } := by
  simp only [doProcess]
  rw [if_neg (by simp [hd])]
  rfl

theorem processMessages_compileError (compile : Engine) (tmpl : String)
    (msgs : List Message) (e : Unit) (hc : compile tmpl = Except.error e) :
    processMessages compile tmpl msgs = (msgs, 0) := by
  simp only [processMessages, hc]

theorem processMessages_noUser (compile : Engine) (tmpl : String)
    (msgs : List Message) (hu : lastUserIndex msgs = none) :
    processMessages compile tmpl msgs = (msgs, 0) := by
  cases hc : compile tmpl with
  | error e => simp only [processMessages, hc]
  | ok f => simp only [processMessages, hc, hu]

theorem processMessages_nonText (compile : Engine) (tmpl : String)
    (msgs : List Message) (f : String → Except Unit String) (i : Nat)
    (m : Message) (items : List String)
    (hc : compile tmpl = Except.ok f) (hu : lastUserIndex msgs = some i)
    (hm : msgs[i]? = some m) (hcontent : m.content = MessageContent.parts items) :
    processMessages compile tmpl msgs = (msgs, 0) := by
  simp only [processMessages, hc, hu, hm, hcontent]

theorem processMessages_applyError (compile : Engine) (tmpl : String)
    (msgs : List Message) (f : String → Except Unit String) (i : Nat)
    (m : Message) (s : String) (e : Unit)
    (hc : compile tmpl = Except.ok f) (hu : lastUserIndex msgs = some i)
    (hm : msgs[i]? = some m) (hcontent : m.content = MessageContent.text s)
    (hf : f s = Except.error e) :
    processMessages compile tmpl msgs = (msgs, 0) := by
  simp only [processMessages, hc, hu, hm, hcontent, hf]

theorem processMessages_identity (compile : Engine) (tmpl : String)
    (msgs : List Message) (f : String → Except Unit String) (i : Nat)
    (m : Message) (s : String)
    (hc : compile tmpl = Except.ok f) (hu : lastUserIndex msgs = some i)
    (hm : msgs[i]? = some m) (hcontent : m.content = MessageContent.text s)
    (hf : f s = Except.ok s) :
    processMessages compile tmpl msgs = (msgs, 0) := by
  simp only [processMessages, hc, hu, hm, hcontent, hf]
  rw [if_neg (by simp)]

theorem processMessages_replaced (compile : Engine) (tmpl : String)
    (msgs : List Message) (f : String → Except Unit String) (i : Nat)
    (m : Message) (s out : String)
    (hc : compile tmpl = Except.ok f) (hu : lastUserIndex msgs = some i)
    (hm : msgs[i]? = some m) (hcontent : m.content = MessageContent.text s)
    (hf : f s = Except.ok out) (hne : out ≠ s) :
    processMessages compile tmpl msgs
      = (msgs.set i { m with content := MessageContent.text out }, 1) := by
  simp only [processMessages, hc, hu, hm, hcontent, hf]
  rw [if_pos hne]

end ContextEngine

namespace ContextEngine

theorem lastUserIndexFrom_spec (msgs : List Message) :
    ∀ (n i : Nat), lastUserIndexFrom msgs n = some i →
      msgs[i]?.map Message.role = some "user"
      ∧ i < n
      ∧ ∀ j, i < j → j < n → msgs[j]?.map Message.role ≠ some "user" := by
  intro n
  induction n with
  | zero =>
    intro i h
    simp [lastUserIndexFrom] at h
  | succ n ih =>
    intro i h
    unfold lastUserIndexFrom at h
    cases hm : msgs[n]? with
    | some m =>
      rw [hm] at h
      simp only [] at h
      by_cases hr : (m.role == "user") = true
      · rw [if_pos hr] at h
        injection h with h
        subst h
        refine ⟨?_, Nat.lt_succ_self _, ?_⟩
        · rw [hm, Option.map_some']
          rw [beq_iff_eq.mp hr]
        · intro j h1 h2
          omega
      · rw [if_neg hr] at h
        obtain ⟨ha, hb, hc⟩ := ih i h
        refine ⟨ha, Nat.lt_succ_of_lt hb, ?_⟩
        intro j hij hjn
        rcases Nat.lt_succ_iff_lt_or_eq.mp hjn with hj | hj
        · exact hc j hij hj
        · subst hj
          rw [hm, Option.map_some']
          intro heq
          injection heq with heq
          exact hr (beq_iff_eq.mpr heq)
    | none =>
      rw [hm] at h
      simp only [] at h
      obtain ⟨ha, hb, hc⟩ := ih i h
      refine ⟨ha, Nat.lt_succ_of_lt hb, ?_⟩
      intro j hij hjn
      rcases Nat.lt_succ_iff_lt_or_eq.mp hjn with hj | hj
      · exact hc j hij hj
      · subst hj
        rw [hm]
        simp

theorem lastUserIndex_spec (msgs : List Message) (i : Nat)
    (h : lastUserIndex msgs = some i) :
    msgs[i]?.map Message.role = some "user"
    ∧ ∀ j, i < j → msgs[j]?.map Message.role ≠ some "user" := by
  obtain ⟨ha, _, hc⟩ := lastUserIndexFrom_spec msgs msgs.length i h
  refine ⟨ha, ?_⟩
  intro j hij
  by_cases hj : j < msgs.length
  · exact hc j hij hj
  · rw [List.getElem?_eq_none (Nat.le_of_not_lt hj)]
    simp

theorem processMessages_count_le_one (compile : Engine) (tmpl : String)
    (msgs : List Message) : (processMessages compile tmpl msgs).2 ≤ 1 := by
  unfold processMessages
  repeat' split
  all_goals simp

theorem processMessages_getElem_other (compile : Engine) (tmpl : String)
    (msgs : List Message) (j : Nat)
    (hj : lastUserIndex msgs ≠ some j) :
    (processMessages compile tmpl msgs).1[j]? = msgs[j]? := by
  rcases hcc : compile tmpl with e | f
  · rw [processMessages_compileError compile tmpl msgs e hcc]
  · rcases hu : lastUserIndex msgs with _ | i
    · rw [processMessages_noUser compile tmpl msgs hu]
    · have hij : i ≠ j := by
        intro h
        exact hj (h ▸ hu)
      rcases hm : msgs[i]? with _ | m
      · simp only [processMessages, hcc, hu, hm]
      · rcases hcontent : m.content with s | items
        · rcases hf : f s with e2 | out
          · rw [processMessages_applyError compile tmpl msgs f i m s e2 hcc hu hm hcontent hf]
          · by_cases hne : out = s
            · subst hne
              rw [processMessages_identity compile tmpl msgs f i m out hcc hu hm hcontent hf]
            · rw [processMessages_replaced compile tmpl msgs f i m s out hcc hu hm hcontent hf hne]
              exact List.getElem?_set_ne hij
        · rw [processMessages_nonText compile tmpl msgs f i m items hcc hu hm hcontent]

theorem substFuel_id (text : String) :
    ∀ (cs : List Char) (fuel : Nat), noPlaceholderAux cs = true →
      cs.length ≤ fuel → substFuel text fuel cs = cs := by
  intro cs
  induction cs with
  | nil =>
    intro fuel _ _
    cases fuel <;> rfl
  | cons c rest ih =>
    intro fuel h hlen
    rw [noPlaceholderAux, Bool.and_eq_true] at h
    obtain ⟨h1, h2⟩ := h
    have hnone : matchPlaceholder (c :: rest) = none := by
      rw [Option.isNone_iff_eq_none] at h1
      exact h1
    cases fuel with
    | zero =>
      simp at hlen
    | succ f =>
      rw [substFuel, hnone]
      rw [ih f h2 (by simpa using hlen)]

theorem string_mk_toList (s : String) : String.mk s.toList = s := rfl

end ContextEngine

namespace ContextEngine

theorem doProcess_enabled_some (compile : Engine) (tmpl : String)
    (ctx : PipelineContext) (hd : templateDisabled (some tmpl) = false) :
    doProcess compile (some tmpl) ctx =
      markAsExecuted
        { messages := (processMessages compile tmpl ctx.messages).1
          metadata := setMeta ctx.metadata processedKey
              (MetaValue.num (processMessages compile tmpl ctx.messages).2) } :=
  doProcess_enabled compile (some tmpl) ctx hd

theorem doProcess_skip_result (compile : Engine) (tmpl : String)
    (ctx : PipelineContext) (hd : templateDisabled (some tmpl) = false)
    (hp : processMessages compile tmpl ctx.messages = (ctx.messages, 0)) :
    (doProcess compile (some tmpl) ctx).messages = ctx.messages
    ∧ (doProcess compile (some tmpl) ctx).metadata processedKey = some (MetaValue.num 0)
    ∧ (doProcess compile (some tmpl) ctx).metadata executedKey = some (MetaValue.bool true) := by
  rw [doProcess_enabled_some compile tmpl ctx hd, hp]
  refine ⟨rfl, ?_, ?_⟩
  · rw [markAsExecuted_metadata_processed]
    exact setMeta_same ctx.metadata processedKey (MetaValue.num 0)
  · exact markAsExecuted_metadata_executed _

theorem doProcessS_corresponds (compile : Engine) (cfg : Option String)
    (s : Store) (c : CtxRef) :
    (doProcessS compile cfg s c).1.msgArrays (doProcessS compile cfg s c).2.msgRef
      = (doProcess compile cfg
          { messages := s.msgArrays c.msgRef, metadata := s.metaMaps c.metaRef }).messages
    ∧ (doProcessS compile cfg s c).1.metaMaps (doProcessS compile cfg s c).2.metaRef
      = (doProcess compile cfg
          { messages := s.msgArrays c.msgRef, metadata := s.metaMaps c.metaRef }).metadata := by
  cases hdc : templateDisabled cfg with
  | true =>
    rw [doProcess_disabled compile cfg _ hdc]
    constructor <;>
      simp [doProcessS, cloneContextS, markAsExecutedS, writeMetaS, writeMsgs,
        markAsExecuted, cloneContext, hdc]
  | false =>
    rw [doProcess_enabled compile cfg _ hdc]
    constructor <;>
      simp [doProcessS, cloneContextS, markAsExecutedS, writeMetaS, writeMsgs,
        markAsExecuted, cloneContext, hdc]

end ContextEngine

namespace ContextEngine

/-- C5: original-context immutability.  For every invocation, all writes
happen only through the references freshly allocated by cloneContext, so
after the call the caller's context references read the same message
sequence and the same metadata content as before the call.  The
hypotheses say the caller's references are live (allocated before the
call). -/
theorem c5_original_context_immutable (compile : Engine) (cfg : Option String)
    (s : Store) (c : CtxRef)
    (h1 : c.msgRef < s.nextRef) (h2 : c.metaRef < s.nextRef) :
    (doProcessS compile cfg s c).1.msgArrays c.msgRef = s.msgArrays c.msgRef
    ∧ (doProcessS compile cfg s c).1.metaMaps c.metaRef = s.metaMaps c.metaRef := by
  have hne1 : c.msgRef ≠ s.nextRef := Nat.ne_of_lt h1
  have hne2 : c.metaRef ≠ s.nextRef + 1 := by omega
  cases hdc : templateDisabled cfg with
  | true =>
    constructor <;>
      simp [doProcessS, cloneContextS, markAsExecutedS, writeMetaS, writeMsgs,
        hdc, hne1, hne2]
  | false =>
    constructor <;>
      simp [doProcessS, cloneContextS, markAsExecutedS, writeMetaS, writeMsgs,
        hdc, hne1, hne2]

/-- Store holding one caller context for the immutability witness. -/
def storeC5 : Store :=
  { msgArrays := fun _ => ctxB.messages
    metaMaps := fun _ => emptyMeta
    nextRef := 1 }

/-- The caller's references for the immutability witness. -/
def refC5 : CtxRef := { msgRef := 0, metaRef := 0 }

theorem c5_witness :
    refC5.msgRef < storeC5.nextRef
    ∧ (doProcessS specEngine (some tplC1) storeC5 refC5).1.msgArrays refC5.msgRef
        = storeC5.msgArrays refC5.msgRef :=
  ⟨by decide,
   (c5_original_context_immutable specEngine (some tplC1) storeC5 refC5
      (by decide) (by decide)).1⟩

/-- C1: substitution correctness.  When the template is enabled, the
engine compiles, the last user message holds plain string content, and
the compiled output differs from that content, the stage replaces exactly
that message by a copy identical except for the content and records a
processed count of 1.  The witness instantiates the scenario of the spec:
template "Context: \x7b\x7btext\x7d\x7d" on content "hi" yields exactly
"Context: hi". -/
theorem c1_substitution_correct (compile : Engine) (tmpl : String)
    (ctx : PipelineContext) (i : Nat) (m : Message) (s out : String)
    (f : String → Except Unit String)
    (hd : templateDisabled (some tmpl) = false)
    (hc : compile tmpl = Except.ok f)
    (hi : lastUserIndex ctx.messages = some i)
    (hm : ctx.messages[i]? = some m)
    (hs : m.content = MessageContent.text s)
    (hf : f s = Except.ok out)
    (hne : out ≠ s) :
    (doProcess compile (some tmpl) ctx).messages
      = ctx.messages.set i { m with content := MessageContent.text out }
    ∧ (doProcess compile (some tmpl) ctx).metadata processedKey
      = some (MetaValue.num 1) := by
  rw [doProcess_enabled_some compile tmpl ctx hd,
    processMessages_replaced compile tmpl ctx.messages f i m s out hc hi hm hs hf hne]
  refine ⟨rfl, ?_⟩
  rw [markAsExecuted_metadata_processed]
  exact setMeta_same ctx.metadata processedKey (MetaValue.num 1)

theorem c1_witness :
    (doProcess specEngine (some tplC1) ctxC1).messages
      = ctxC1.messages.set 0 { msgC1 with content := MessageContent.text "Context: hi" }
    ∧ (doProcess specEngine (some tplC1) ctxC1).metadata processedKey
      = some (MetaValue.num 1) :=
  c1_substitution_correct specEngine tplC1 ctxC1 0 msgC1 "hi" "Context: hi"
    (fun s => Except.ok (applyTemplate tplC1 s))
    rfl rfl rfl rfl rfl rfl (by decide)

/-- C2: single-target scope and target selection.  The selected index is
the last index whose message has role user (first conjunct gives the
scan-from-the-end semantics); every message slot other than the selected
one reads back unchanged; and when no user message exists no message is
altered and, whenever the template is enabled, the recorded processed
count is 0. -/
theorem c2_single_target_scope (compile : Engine) (cfg : Option String)
    (ctx : PipelineContext) :
    (∀ i, lastUserIndex ctx.messages = some i →
        ctx.messages[i]?.map Message.role = some "user"
        ∧ ∀ j, i < j → ctx.messages[j]?.map Message.role ≠ some "user")
    ∧ (∀ j, lastUserIndex ctx.messages ≠ some j →
        (doProcess compile cfg ctx).messages[j]? = ctx.messages[j]?)
    ∧ (lastUserIndex ctx.messages = none →
        (doProcess compile cfg ctx).messages = ctx.messages
        ∧ (templateDisabled cfg = false →
            (doProcess compile cfg ctx).metadata processedKey
              = some (MetaValue.num 0))) := by
  refine ⟨?_, ?_, ?_⟩
  · intro i hi
    exact lastUserIndex_spec ctx.messages i hi
  · intro j hj
    cases hdc : templateDisabled cfg with
    | true =>
      rw [doProcess_disabled compile cfg ctx hdc]
      rfl
    | false =>
      rw [doProcess_enabled compile cfg ctx hdc, markAsExecuted_messages]
      exact processMessages_getElem_other compile (cfg.getD "") ctx.messages j hj
  · intro hu
    cases hdc : templateDisabled cfg with
    | true =>
      rw [doProcess_disabled compile cfg ctx hdc]
      refine ⟨rfl, ?_⟩
      intro h
      exact Bool.noConfusion h
    | false =>
      rw [doProcess_enabled compile cfg ctx hdc,
        processMessages_noUser compile (cfg.getD "") ctx.messages hu]
      refine ⟨rfl, fun _ => ?_⟩
      rw [markAsExecuted_metadata_processed]
      exact setMeta_same ctx.metadata processedKey (MetaValue.num 0)

theorem c2_witness :
    lastUserIndex ctxB.messages ≠ some 0
    ∧ (doProcess specEngine (some tplC1) ctxB).messages[0]? = ctxB.messages[0]? :=
  ⟨by decide,
   (c2_single_target_scope specEngine (some tplC1) ctxB).2.1 0 (by decide)⟩

/-- C3: failure containment.  doProcess is a total function of the
context and the engine (no exception escapes it), and whether the engine
throws at compile time or the compiled function throws at apply time, all
messages are returned unchanged, the processed count is recorded as 0,
and the execution marker is still stamped. -/
theorem c3_failure_containment (compile : Engine) (tmpl : String)
    (ctx : PipelineContext)
    (hd : templateDisabled (some tmpl) = false) :
    ((∃ e, compile tmpl = Except.error e) →
        (doProcess compile (some tmpl) ctx).messages = ctx.messages
        ∧ (doProcess compile (some tmpl) ctx).metadata processedKey
          = some (MetaValue.num 0)
        ∧ (doProcess compile (some tmpl) ctx).metadata executedKey
          = some (MetaValue.bool true))
    ∧ (∀ f i m s e, compile tmpl = Except.ok f →
        lastUserIndex ctx.messages = some i →
        ctx.messages[i]? = some m →
        m.content = MessageContent.text s →
        f s = Except.error e →
        (doProcess compile (some tmpl) ctx).messages = ctx.messages
        ∧ (doProcess compile (some tmpl) ctx).metadata processedKey
          = some (MetaValue.num 0)
        ∧ (doProcess compile (some tmpl) ctx).metadata executedKey
          = some (MetaValue.bool true)) := by
  constructor
  · intro h
    obtain ⟨e, hc⟩ := h
    exact doProcess_skip_result compile tmpl ctx hd
      (processMessages_compileError compile tmpl ctx.messages e hc)
  · intro f i m s e hc hi hm hs hf
    exact doProcess_skip_result compile tmpl ctx hd
      (processMessages_applyError compile tmpl ctx.messages f i m s e hc hi hm hs hf)

theorem c3_witness :
    (doProcess failCompileEngine (some tplC1) ctxB).messages = ctxB.messages
    ∧ (doProcess failCompileEngine (some tplC1) ctxB).metadata processedKey
      = some (MetaValue.num 0)
    ∧ (doProcess failApplyEngine (some tplC1) ctxB).messages = ctxB.messages
    ∧ (doProcess failApplyEngine (some tplC1) ctxB).metadata processedKey
      = some (MetaValue.num 0) := by
  have h1 := (c3_failure_containment failCompileEngine tplC1 ctxB rfl).1 ⟨(), rfl⟩
  have h2 := (c3_failure_containment failApplyEngine tplC1 ctxB rfl).2
    (fun _ => Except.error ()) 1
    { id := "u1", role := "user", content := MessageContent.text "hello" }
    "hello" () rfl rfl rfl rfl rfl
  exact ⟨h1.1, h1.2.1, h2.1, h2.2.1⟩

end ContextEngine

namespace ContextEngine

/-- Placeholder-free template used for the identity and stability
scenarios. -/
def tplC6 : String := "no placeholders here"

/-- Context for the identity and stability scenarios. -/
def ctxC6 : PipelineContext :=
  { messages := [ { id := "c6", role := "user", content := MessageContent.text "hello" } ]
    metadata := emptyMeta }

/-- Template made of inert placeholder-like syntax only: wrong case,
single braces, and foreign delimiters. -/
def tplC7 : String := "pre \x7b\x7b TEXT \x7d\x7d mid \x7bname\x7d post"

/-- C4 as stated is false: when no template is configured the source
returns early and never writes the processed-count key, so the key stays
absent rather than being recorded as 0. -/
theorem c4_counterexample :
    (doProcess specEngine none ctxC1).metadata processedKey
      ≠ some (MetaValue.num 0) := by
  intro h
  have he : (doProcess specEngine none ctxC1).metadata processedKey = none := rfl
  rw [he] at h
  exact Option.noConfusion h

/-- C4 amended: when no template is configured the output messages equal
the input messages and the processed-count key is not written (it keeps
whatever value it had); only the execution marker is added to
metadata. -/
theorem c4_disabled_no_record (compile : Engine) (cfg : Option String)
    (ctx : PipelineContext) (hd : templateDisabled cfg = true) :
    (doProcess compile cfg ctx).messages = ctx.messages
    ∧ (doProcess compile cfg ctx).metadata processedKey = ctx.metadata processedKey
    ∧ ∀ k, k ≠ executedKey → (doProcess compile cfg ctx).metadata k = ctx.metadata k := by
  rw [doProcess_disabled compile cfg ctx hd]
  refine ⟨rfl, markAsExecuted_metadata_processed (cloneContext ctx), ?_⟩
  intro k hk
  exact markAsExecuted_metadata_other (cloneContext ctx) k hk

theorem c4_witness :
    templateDisabled none = true
    ∧ (doProcess specEngine none ctxB).messages = ctxB.messages :=
  ⟨rfl, (c4_disabled_no_record specEngine none ctxB rfl).1⟩

/-- C6: identity-preserving no-op.  When the compiled template applied to
the target content returns that same content, the message sequence is
returned unchanged (no slot is replaced) and the processed count is 0;
the witness applies the stage with the placeholder-free template
"no placeholders here" a second time to the already-processed context and
observes no change and a count of 0. -/
theorem c6_identity_noop (compile : Engine) (tmpl : String)
    (ctx : PipelineContext) (i : Nat) (m : Message) (s : String)
    (f : String → Except Unit String)
    (hd : templateDisabled (some tmpl) = false)
    (hc : compile tmpl = Except.ok f)
    (hi : lastUserIndex ctx.messages = some i)
    (hm : ctx.messages[i]? = some m)
    (hs : m.content = MessageContent.text s)
    (hf : f s = Except.ok s) :
    (doProcess compile (some tmpl) ctx).messages = ctx.messages
    ∧ (doProcess compile (some tmpl) ctx).metadata processedKey
      = some (MetaValue.num 0) := by
  have h := doProcess_skip_result compile tmpl ctx hd
    (processMessages_identity compile tmpl ctx.messages f i m s hc hi hm hs hf)
  exact ⟨h.1, h.2.1⟩

theorem c6_witness :
    (doProcess specEngine (some tplC6)
        (doProcess specEngine (some tplC6) ctxC6)).messages
      = (doProcess specEngine (some tplC6) ctxC6).messages
    ∧ (doProcess specEngine (some tplC6)
        (doProcess specEngine (some tplC6) ctxC6)).metadata processedKey
      = some (MetaValue.num 0) :=
  c6_identity_noop specEngine tplC6
    (doProcess specEngine (some tplC6) ctxC6) 0
    { id := "c6", role := "user", content := MessageContent.text tplC6 }
    tplC6 (fun s => Except.ok (applyTemplate tplC6 s))
    rfl rfl (by decide) (by decide) rfl rfl

/-- C7: placeholder grammar exclusivity.  The engine the stage runs with
never fails to compile, and a template in which no position matches the
recognised placeholder (double braces around the case-sensitive
identifier text with optional whitespace) is returned verbatim for every
bound text. -/
theorem c7_placeholder_grammar (tmpl text : String)
    (h : noPlaceholder tmpl = true) :
    applyTemplate tmpl text = tmpl
    ∧ specEngine tmpl = Except.ok (fun s => Except.ok (applyTemplate tmpl s)) := by
  refine ⟨?_, rfl⟩
  unfold applyTemplate
  rw [substFuel_id text tmpl.toList tmpl.toList.length h (Nat.le_refl _)]
  exact string_mk_toList tmpl

theorem c7_witness :
    noPlaceholder tplC7 = true ∧ applyTemplate tplC7 "payload" = tplC7 :=
  ⟨by decide, (c7_placeholder_grammar tplC7 "payload" (by decide)).1⟩

/-- C8: non-text safety.  When the last user message's content is the
structured multimodal variant, every message is returned unchanged, the
processed count is recorded as 0, and (the function being total) no error
is raised; the execution marker is still stamped. -/
theorem c8_non_text_safety (compile : Engine) (tmpl : String)
    (ctx : PipelineContext) (i : Nat) (m : Message) (items : List String)
    (hd : templateDisabled (some tmpl) = false)
    (hi : lastUserIndex ctx.messages = some i)
    (hm : ctx.messages[i]? = some m)
    (hs : m.content = MessageContent.parts items) :
    (doProcess compile (some tmpl) ctx).messages = ctx.messages
    ∧ (doProcess compile (some tmpl) ctx).metadata processedKey
      = some (MetaValue.num 0)
    ∧ (doProcess compile (some tmpl) ctx).metadata executedKey
      = some (MetaValue.bool true) := by
  apply doProcess_skip_result compile tmpl ctx hd
  rcases hcc : compile tmpl with e | f
  · exact processMessages_compileError compile tmpl ctx.messages e hcc
  · exact processMessages_nonText compile tmpl ctx.messages f i m items hcc hi hm hs

theorem c8_witness :
    (doProcess specEngine (some tplC1) ctxParts).messages = ctxParts.messages
    ∧ (doProcess specEngine (some tplC1) ctxParts).metadata processedKey
      = some (MetaValue.num 0) := by
  have h := c8_non_text_safety specEngine tplC1 ctxParts 0
    { id := "p1", role := "user", content := MessageContent.parts ["img"] } ["img"]
    rfl rfl rfl rfl
  exact ⟨h.1, h.2.1⟩

/-- C9 as stated is false: on the disabled code path the metadata does
not gain the processed-count field at all (the key reads back absent, not
0 or 1). -/
theorem c9_counterexample :
    ¬ ∃ n, (doProcess specEngine (some "") ctxB).metadata processedKey
        = some (MetaValue.num n) := by
  intro h
  obtain ⟨n, h⟩ := h
  have he : (doProcess specEngine (some "") ctxB).metadata processedKey = none := rfl
  rw [he] at h
  exact Option.noConfusion h

/-- C9 amended: on every invocation the returned context is the result of
markAsExecuted applied as the final step (so the execution marker is
present); on every enabled code path the metadata gains the numeric
processed-count field with value 0 or 1 under the stage key; and no
metadata key other than those two is ever touched.  On the disabled path
the processed-count key is not written. -/
theorem c9_execution_marking (compile : Engine) (cfg : Option String)
    (ctx : PipelineContext) :
    (∃ c, doProcess compile cfg ctx = markAsExecuted c)
    ∧ (doProcess compile cfg ctx).metadata executedKey = some (MetaValue.bool true)
    ∧ (templateDisabled cfg = false →
        ∃ n, n ≤ 1 ∧ (doProcess compile cfg ctx).metadata processedKey
          = some (MetaValue.num n))
    ∧ ∀ k, k ≠ executedKey → k ≠ processedKey →
        (doProcess compile cfg ctx).metadata k = ctx.metadata k := by
  cases hdc : templateDisabled cfg with
  | true =>
    rw [doProcess_disabled compile cfg ctx hdc]
    refine ⟨⟨cloneContext ctx, rfl⟩, markAsExecuted_metadata_executed _, ?_, ?_⟩
    · intro h
      exact Bool.noConfusion h
    · intro k hk _
      exact markAsExecuted_metadata_other (cloneContext ctx) k hk
  | false =>
    rw [doProcess_enabled compile cfg ctx hdc]
    refine ⟨⟨_, rfl⟩, markAsExecuted_metadata_executed _, ?_, ?_⟩
    · intro _
      refine ⟨(processMessages compile (cfg.getD "") ctx.messages).2,
        processMessages_count_le_one compile (cfg.getD "") ctx.messages, ?_⟩
      rw [markAsExecuted_metadata_processed]
      exact setMeta_same ctx.metadata processedKey
        (MetaValue.num (processMessages compile (cfg.getD "") ctx.messages).2)
    · intro k hk1 hk2
      rw [markAsExecuted_metadata_other _ k hk1]
      exact setMeta_other ctx.metadata processedKey
        (MetaValue.num (processMessages compile (cfg.getD "") ctx.messages).2) k hk2

theorem c9_witness :
    templateDisabled (some tplC6) = false
    ∧ (∃ n, n ≤ 1 ∧ (doProcess specEngine (some tplC6) ctxB).metadata processedKey
        = some (MetaValue.num n))
    ∧ (doProcess specEngine (some tplC6) ctxB).metadata "other"
      = ctxB.metadata "other" :=
  ⟨rfl,
   (c9_execution_marking specEngine (some tplC6) ctxB).2.2.1 rfl,
   (c9_execution_marking specEngine (some tplC6) ctxB).2.2.2 "other"
     (by decide) (by decide)⟩

/-- C10: the empty-string template is treated as disabled.  Because the
guard tests the template's truthiness, the empty string takes the same
early-exit path as an absent template, for every engine: the result is
exactly the marked clone, and in particular the processed-count key is
not written. -/
theorem c10_empty_template_disabled (compile : Engine) (ctx : PipelineContext) :
    doProcess compile (some "") ctx = markAsExecuted (cloneContext ctx)
    ∧ (doProcess compile (some "") ctx).metadata processedKey
      = ctx.metadata processedKey := by
  have h : doProcess compile (some "") ctx = markAsExecuted (cloneContext ctx) :=
    doProcess_disabled compile (some "") ctx rfl
  refine ⟨h, ?_⟩
  rw [h]
  exact markAsExecuted_metadata_processed (cloneContext ctx)

end ContextEngine
